import Mathlib

/-!
Shallow embedding of the st7920-dashboard repository (src/graphics.py and
src/driver.py) and verification of the frozen claims about it.

Conventions of the embedding:
* numpy `uint16` words are modelled as `Nat` values; all word-level
  operations mask to 16 bits exactly where the source does (numpy's
  fixed-width arithmetic), e.g. `~m` on a `uint16` is `0xFFFF ^^^ m`.
* the 2-D numpy array `Bitmap.words` is a `List (List Nat)` (rows of words);
  a well-formedness predicate records its `height x width/16` shape.
* Python object mutation becomes explicit state passing; methods that
  mutate `self` return the updated record.
* Python exceptions become `Except String` / an explicit error field.
* the SPI byte stream of the driver is modelled as the list of command and
  data bytes handed to `_send` (the nibble framing below that is the
  external transport and out of scope).
-/

set_option maxRecDepth 10000

namespace St7920

/-- Blend modes of `graphics.py` (`class BlendMode`). -/
inductive BlendMode where
  | on
  | off
  | xor
deriving DecidableEq, Repr

/-- Rows-of-words grid, the model of the numpy array `Bitmap.words`. -/
abbrev Grid := List (List Nat)

/-- Read one word of a grid (`words[r, c]`), defaulting to 0 out of range. -/
def gridGet (ws : Grid) (r c : Nat) : Nat := (ws.getD r []).getD c 0

/-- Write one word of a grid (`words[r, c] = v`); out-of-range writes keep
the grid unchanged (the in-range case is the only one the source reaches,
its numpy indices being bounds-checked before use). -/
def gridSet (ws : Grid) (r c : Nat) (v : Nat) : Grid :=
  ws.set r ((ws.getD r []).set c v)

/-- The bit read `(w >> bit) & 1` used by `Bitmap.get_pixel`. -/
def bitGet (w i : Nat) : Nat := (w >>> i) &&& 1

/-- The model of `class Bitmap` (graphics.py lines 17-64): dimensions, the
word grid, the local dirty flag `_is_dirty` and `_blend_mode`.  The parent
back-reference `_parent` is modelled structurally by the scene tree below
(a node's parent is the container holding it), so it has no field here. -/
structure Bitmap where
  width : Nat
  height : Nat
  words : Grid
  isDirty : Bool
  blendMode : BlendMode
deriving DecidableEq, Repr

/-- `Bitmap.__init__`: a fresh all-zero grid, dirty, with the given blend
mode (graphics.py lines 20-26). -/
def mkBitmap (w h : Nat) (bm : BlendMode) : Bitmap :=
  { width := w, height := h
    words := List.replicate h (List.replicate (w / 16) 0)
    isDirty := true, blendMode := bm }

/-- Shape well-formedness: the grid really is `height` rows of
`width / 16` words, as numpy guarantees for the source. -/
def Bitmap.WF (b : Bitmap) : Prop :=
  b.words.length = b.height ∧ ∀ row ∈ b.words, row.length = b.width / 16

instance (b : Bitmap) : Decidable b.WF := by
  unfold Bitmap.WF; infer_instance

/-- `Bitmap.reset` (graphics.py lines 28-29): `words.fill(0)` zeroes every
word in place, preserving the array shape and not touching the dirty
flag. -/
def Bitmap.reset (b : Bitmap) : Bitmap :=
  { b with words := b.words.map (fun row => row.map (fun _ => 0)) }

/-- In-bounds test `0 <= x < width and 0 <= y < height` on pixel
coordinates. -/
def Bitmap.inB (b : Bitmap) (x y : Int) : Prop :=
  0 ≤ x ∧ x < (b.width : Int) ∧ 0 ≤ y ∧ y < (b.height : Int)

instance (b : Bitmap) (x y : Int) : Decidable (b.inB x y) := by
  unfold Bitmap.inB; infer_instance

/-- `Bitmap.set_pixel` (graphics.py lines 31-41): out-of-bounds returns
with no change at all; in bounds it sets or clears the single bit
`15 - (x % 16)` of word `x // 16` of row `y` and then calls `dirty()`
(whose local effect is `_is_dirty = True`; upward propagation lives in the
scene tree). -/
def Bitmap.set_pixel (b : Bitmap) (x y : Int) (value : Bool := true) : Bitmap :=
  if b.inB x y then
    let word := x.toNat / 16
    let bit := 15 - x.toNat % 16
    let mask := 1 <<< bit
    let w := gridGet b.words y.toNat word
    let w' := if value then w ||| mask else w &&& (0xFFFF ^^^ mask)
    { b with words := gridSet b.words y.toNat word w', isDirty := true }
  else b

/-- `Bitmap.get_pixel` (graphics.py lines 43-48): out-of-bounds reads 0;
in bounds it reads bit `15 - (x % 16)` of word `x // 16` of row `y`. -/
def Bitmap.get_pixel (b : Bitmap) (x y : Int) : Nat :=
  if b.inB x y then
    bitGet (gridGet b.words y.toNat (x.toNat / 16)) (15 - x.toNat % 16)
  else 0

/-- `Bitmap.set_word` (graphics.py lines 50-53): bounds-checked against
`height` and `width // 16`; in bounds stores `value & 0xFFFF` and calls
`dirty()`; out of bounds does nothing. -/
def Bitmap.set_word (b : Bitmap) (v h : Int) (value : Nat := 0x0000) : Bitmap :=
  if 0 ≤ v ∧ v < (b.height : Int) ∧ 0 ≤ h ∧ h < ((b.width / 16 : Nat) : Int) then
    { b with words := gridSet b.words v.toNat h.toNat (value &&& 0xFFFF)
             isDirty := true }
  else b

/-- `Bitmap.reverse` (graphics.py lines 63-64): `words ^= 0xFFFF`
elementwise; the dirty flag is not touched. -/
def Bitmap.reverse (b : Bitmap) : Bitmap :=
  { b with words := b.words.map (fun row => row.map (fun w => w ^^^ 0xFFFF)) }

/-! ### Surface write sequences (claim C6) -/

/-- One surface write call: either `set_pixel(x, y, value)` or
`set_word(v, h, value)`. -/
inductive PixOp where
  | setPix (x y : Int) (v : Bool)
  | setWordOp (r c : Int) (val : Nat)
deriving DecidableEq, Repr

def applyOp (b : Bitmap) : PixOp → Bitmap
  | .setPix x y v => b.set_pixel x y v
  | .setWordOp r c val => b.set_word r c val

/-- Run a sequence of surface write calls left to right. -/
def applyOps (b : Bitmap) (ops : List PixOp) : Bitmap := ops.foldl applyOp b

/-- The bit value a single call writes at pixel `(x, y)` of a `W x H`
surface, if it writes there at all: `set_pixel` writes its boolean at its
own in-bounds coordinates; `set_word` writes bit `15 - x % 16` of
`value & 0xFFFF` at every pixel of the addressed word. -/
def opWrite (W H : Nat) (x y : Int) : PixOp → Option Nat
  | .setPix x' y' v =>
      if x = x' ∧ y = y' ∧ (0 ≤ x ∧ x < (W : Int) ∧ 0 ≤ y ∧ y < (H : Int)) then
        some (if v then 1 else 0)
      else none
  | .setWordOp r c val =>
      if y = r ∧ ((x.toNat / 16 : Nat) : Int) = c ∧
          (0 ≤ x ∧ x < (W : Int) ∧ 0 ≤ y ∧ y < (H : Int)) then
        some (bitGet (val &&& 0xFFFF) (15 - x.toNat % 16))
      else none

/-- The last value a sequence of calls writes at pixel `(x, y)`, if any. -/
def lastWrite (W H : Nat) (x y : Int) (ops : List PixOp) : Option Nat :=
  ops.foldl (fun acc op =>
    match opWrite W H x y op with
    | some v => some v
    | none => acc) none

/-! ### The scene tree: `GraphicsBuffer` and `Line` nodes

The Python objects hold parent back-references (`_parent`); the embedding
represents the same structure as a tree, so "the parent of a node" is the
container in which it sits and a node is addressed by its path (list of
child indices) from the root. -/

/-- A drawable node: a `Line` leaf or a `GraphicsBuffer` container with its
ordered children (graphics.py lines 70-166). -/
inductive Node where
  | line (x1 y1 x2 y2 : Int) (bmp : Bitmap)
  | buffer (bmp : Bitmap) (children : List Node)

def Node.bmpOf : Node → Bitmap
  | .line _ _ _ _ b => b
  | .buffer b _ => b

/-- A node's local dirty flag. -/
def nodeFlag (n : Node) : Bool := n.bmpOf.isDirty

/-- Read the dirty flag of the node at a path. -/
def nodeFlagAt : List Nat → Node → Bool
  | [], n => nodeFlag n
  | _ :: _, .line _ _ _ _ bmp => bmp.isDirty
  | i :: p, .buffer _ cs => nodeFlagAt p (cs.getD i (.line 0 0 0 0 (mkBitmap 0 0 .on)))

def modifyIdx (f : Node → Node) : List Node → Nat → List Node
  | [], _ => []
  | c :: cs, 0 => f c :: cs
  | c :: cs, i + 1 => c :: modifyIdx f cs i

/-- `Bitmap.dirty` (graphics.py lines 58-61) invoked on the node at the
given path: the node sets its local flag and the call recurses through the
parent back-references, so every container on the path to the root gets its
flag set as well.  (The source's bottom-up recursion is rendered here
top-down along the path; the set of flags written is the same.) -/
def markDirtyAt : List Nat → Node → Node
  | [], .line a b c d bmp => .line a b c d { bmp with isDirty := true }
  | [], .buffer bmp cs => .buffer { bmp with isDirty := true } cs
  | _ :: _, .line a b c d bmp => .line a b c d { bmp with isDirty := true }
  | i :: p, .buffer bmp cs =>
      .buffer { bmp with isDirty := true } (modifyIdx (markDirtyAt p) cs i)

/-- One step of the integer Bresenham loop of `Line.draw` (graphics.py
lines 153-163), with explicit fuel standing in for `while True` (the fuel
chosen by `lineRender` dominates the loop's step count). -/
def bresenhamLoop (fuel : Nat) (x1 y1 x2 y2 sx sy dx dy err : Int)
    (b : Bitmap) : Bitmap :=
  match fuel with
  | 0 => b
  | fuel + 1 =>
    let b1 := b.set_pixel x1 y1 true
    if x1 = x2 ∧ y1 = y2 then b1
    else
      let e2 := 2 * err
      let err1 := if e2 ≥ dy then err + dy else err
      let x1' := if e2 ≥ dy then x1 + sx else x1
      let err2 := if e2 ≤ dx then err1 + dx else err1
      let y1' := if e2 ≤ dx then y1 + sy else y1
      bresenhamLoop fuel x1' y1' x2 y2 sx sy dx dy err2 b1

/-- The rasterization body of `Line.draw` (graphics.py lines 149-163). -/
def lineRender (x1 y1 x2 y2 : Int) (b : Bitmap) : Bitmap :=
  let dx := |x2 - x1|
  let dy := -|y2 - y1|
  let sx : Int := if x1 < x2 then 1 else -1
  let sy : Int := if y1 < y2 then 1 else -1
  let err := dx + dy
  bresenhamLoop ((dx - dy).toNat + 1) x1 y1 x2 y2 sx sy dx dy err b

/-- `Line.draw(width, height)` (graphics.py lines 143-166): early return
when not dirty, else reset, Bresenham, clear the flag.  (The passed width
and height are ignored by the source as well.) -/
def lineDraw (x1 y1 x2 y2 : Int) (bmp : Bitmap) : Bitmap :=
  if ¬ bmp.isDirty then bmp
  else
    let b2 := lineRender x1 y1 x2 y2 bmp.reset
    { b2 with isDirty := false }

/-- The per-mode combination step of `GraphicsBuffer.draw` (graphics.py
lines 87-92) on a single accumulator word: `|=`, `&= ~`, `^=` (numpy
`uint16`, so `~d` is `0xFFFF ^^^ d`). -/
def blendWord : BlendMode → Nat → Nat → Nat
  | .on, a, d => a ||| d
  | .off, a, d => a &&& (0xFFFF ^^^ d)
  | .xor, a, d => a ^^^ d

/-- The same combination lifted elementwise to the whole accumulator
grid. -/
def blendGrid (bm : BlendMode) (a d : Grid) : Grid :=
  List.zipWith (fun ra rd => List.zipWith (blendWord bm) ra rd) a d

/-- Elementwise `|` of two grids (`self.words |= drawn.words`). -/
def gridOr (a d : Grid) : Grid :=
  List.zipWith (fun ra rd => List.zipWith (fun u v => u ||| v) ra rd) a d

/-- The call `c.draw(self.width, self.height)` the compositor makes on a
child (graphics.py line 86).  A `Line` child runs `Line.draw` and returns
itself (mutated).  A `GraphicsBuffer` child is a `TypeError`: the method
`GraphicsBuffer.draw` (line 79) is declared with no width/height
parameters, so passing the two arguments raises before anything runs. -/
def drawNode (_w _h : Nat) : Node → Except String (Bitmap × Node)
  | .line x1 y1 x2 y2 bmp =>
      let b := lineDraw x1 y1 x2 y2 bmp
      .ok (b, .line x1 y1 x2 y2 b)
  | .buffer _ _ =>
      .error "TypeError: GraphicsBuffer.draw takes 1 positional argument but 3 were given"

/-- The child loop of `GraphicsBuffer.draw` (graphics.py lines 84-92):
draw each child in insertion order, blending its words into the
accumulator; each child is replaced by its mutated self. -/
def gbCompose (w h : Nat) (acc : Grid) :
    List Node → Except String (Grid × List Node)
  | [] => .ok (acc, [])
  | c :: cs =>
    let bm := c.bmpOf.blendMode
    match drawNode w h c with
    | .error e => .error e
    | .ok (drawn, c') =>
      match gbCompose w h (blendGrid bm acc drawn.words) cs with
      | .error e => .error e
      | .ok (accF, cs') => .ok (accF, c' :: cs')

/-- `GraphicsBuffer.draw()` (graphics.py lines 79-93): early return when
the flag is clear; else reset the accumulator, compose the children in
order and return self.  Note the source never assigns
`self._is_dirty = False`, so the returned buffer keeps its flag. -/
def gbDraw : Node → Except String (Bitmap × Node)
  | .line _ _ _ _ _ =>
      .error "TypeError: Line.draw missing 2 required positional arguments"
  | .buffer bmp cs =>
    if ¬ bmp.isDirty then .ok (bmp, .buffer bmp cs)
    else
      match gbCompose bmp.width bmp.height bmp.reset.words cs with
      | .error e => .error e
      | .ok (acc, cs') =>
        let bmp' := { bmp with words := acc }
        .ok (bmp', .buffer bmp' cs')

/-- `GraphicsBuffer.add` (graphics.py lines 75-77): set the child's parent
back-reference to this buffer (here: place it in the tree under the
buffer) and append it to `children`.  Nothing else is touched. -/
def gbAdd : Node → Node → Node
  | .buffer bmp cs, d => .buffer bmp (cs ++ [d])
  | n, _ => n

/-- The composed words of a successful top-level `draw()`, if any. -/
def gbWords (n : Node) : Option Grid :=
  match gbDraw n with
  | .ok (b, _) => some b.words
  | .error _ => none

/-- The rendered surface a child hands the compositor, if its draw call
succeeds. -/
def drawnPixel (w h : Nat) (n : Node) (x y : Int) : Nat :=
  match drawNode w h n with
  | .ok (b, _) => b.get_pixel x y
  | .error _ => 0

/-! ### Triangle scanline fill (graphics.py lines 304-346) -/

/-- Python 3 `round` at a rational value: round half to even. -/
def pyRound (q : ℚ) : Int :=
  let f := q.floor
  let r := q - (f : ℚ)
  if r < 1 / 2 then f
  else if 1 / 2 < r then f + 1
  else if f % 2 = 0 then f else f + 1

/-- `range(a, b + 1)`: the integers from `a` to `b` inclusive. -/
def intRange (a b : Int) : List Int :=
  (List.range (b + 1 - a).toNat).map (fun (i : Nat) => a + (i : Int))

def insertSorted (x : ℚ) : List ℚ → List ℚ
  | [] => [x]
  | y :: ys => if x ≤ y then x :: y :: ys else y :: insertSorted x ys

/-- Ascending sort (the value of Python's `sorted` on rationals). -/
def pySorted (l : List ℚ) : List ℚ := l.foldr insertSorted []

/-- The intersection abscissas of scanline `y` with the three triangle
edges, in the source's edge order, skipping horizontal edges and edges not
spanning `y` (graphics.py lines 329-340); the source computes them in
floating point, modelled here by exact rationals. -/
def xIntersections (x1 y1 x2 y2 x3 y3 : Int) (y : Int) : List ℚ :=
  [((x1, y1), (x2, y2)), ((x2, y2), (x3, y3)), ((x3, y3), (x1, y1))].foldr
    (fun e acc =>
      let x0 := e.1.1
      let y0 := e.1.2
      let xe := e.2.1
      let ye := e.2.2
      if y0 = ye then acc
      else if min y0 ye ≤ y ∧ y ≤ max y0 ye then
        ((x0 : ℚ) + ((y : ℚ) - (y0 : ℚ)) / ((ye : ℚ) - (y0 : ℚ)) *
          ((xe : ℚ) - (x0 : ℚ))) :: acc
      else acc) []

/-- One scanline of the filled-triangle loop (graphics.py lines 328-344):
if at least two intersections exist, fill the inclusive span between the
rounded two smallest; otherwise leave the row untouched. -/
def fillScanline (x1 y1 x2 y2 x3 y3 : Int) (b : Bitmap) (y : Int) : Bitmap :=
  if 2 ≤ (xIntersections x1 y1 x2 y2 x3 y3 y).length then
    (intRange
        (pyRound ((pySorted (xIntersections x1 y1 x2 y2 x3 y3 y)).getD 0 0))
        (pyRound ((pySorted (xIntersections x1 y1 x2 y2 x3 y3 y)).getD 1 0))).foldl
      (fun bb x => bb.set_pixel x y true) b
  else b

/-- The fill branch of `Triangle.draw` (graphics.py lines 321-344),
including the preceding `reset`. -/
def triangleFillRender (x1 y1 x2 y2 x3 y3 : Int) (b : Bitmap) : Bitmap :=
  (intRange (min y1 (min y2 y3)) (max y1 (max y2 y3))).foldl
    (fillScanline x1 y1 x2 y2 x3 y3) b.reset

/-- `Triangle.draw(width, height)` (graphics.py lines 304-346). -/
def triangleDraw (x1 y1 x2 y2 x3 y3 : Int) (fill : Bool) (w h : Nat)
    (bmp : Bitmap) : Bitmap :=
  if ¬ bmp.isDirty then bmp
  else if fill then
    { triangleFillRender x1 y1 x2 y2 x3 y3 bmp with isDirty := false }
  else
    let l1 := lineDraw x1 y1 x2 y2 (mkBitmap w h bmp.blendMode)
    let l2 := lineDraw x2 y2 x3 y3 (mkBitmap w h bmp.blendMode)
    let l3 := lineDraw x3 y3 x1 y1 (mkBitmap w h bmp.blendMode)
    let br := bmp.reset
    { br with words := gridOr br.words (gridOr (gridOr l1.words l2.words) l3.words)
              isDirty := false }

/-- The span condition of one scanline: at least two intersections, and
`x` between the rounded two smallest of them (inclusive). -/
def scanSpan (x1 y1 x2 y2 x3 y3 : Int) (yr x : Int) : Prop :=
  2 ≤ (xIntersections x1 y1 x2 y2 x3 y3 yr).length ∧
  pyRound ((pySorted (xIntersections x1 y1 x2 y2 x3 y3 yr)).getD 0 0) ≤ x ∧
  x ≤ pyRound ((pySorted (xIntersections x1 y1 x2 y2 x3 y3 yr)).getD 1 0)

instance (x1 y1 x2 y2 x3 y3 yr x : Int) :
    Decidable (scanSpan x1 y1 x2 y2 x3 y3 yr x) := by
  unfold scanSpan; infer_instance

/-- Follows the spec's words for the filled triangle (spec section 4.3):
pixel `(x, y)` is inked exactly when it is in bounds, `y` lies in
`[ymin, ymax]`, the scanline at `y` meets at least two non-horizontal
edges, and `x` lies in the inclusive span between the rounded two smallest
intersection abscissas. -/
def trianglePixelSpec (x1 y1 x2 y2 x3 y3 : Int) (W H : Nat) (x y : Int) : Bool :=
  let ymin := min y1 (min y2 y3)
  let ymax := max y1 (max y2 y3)
  let xints := xIntersections x1 y1 x2 y2 x3 y3 y
  let s := pySorted xints
  decide (0 ≤ x) && decide (x < (W : Int)) &&
  decide (0 ≤ y) && decide (y < (H : Int)) &&
  decide (ymin ≤ y) && decide (y ≤ ymax) &&
  decide (2 ≤ xints.length) &&
  decide (pyRound (s.getD 0 0) ≤ x) && decide (x ≤ pyRound (s.getD 1 0))

/-! ### The driver (src/driver.py) -/

/-- One byte handed to `ST7920._send`: a command byte or a data byte. -/
inductive Tx where
  | cmd (b : Nat)
  | data (b : Nat)
deriving DecidableEq, Repr

/-- The driver state of `class ST7920` relevant to the claims: dimensions,
the two instruction-set flags and the differential baseline
`old_buffer`. -/
structure DriverSt where
  width : Nat
  height : Nat
  extended : Bool
  graphics : Bool
  old_buffer : Option Bitmap
deriving DecidableEq, Repr

/-- `ST7920.set_gdram_address` (driver.py lines 107-123): bounds-check the
pre-remap row and column, then remap rows 32-63 to the right half and send
the two address command bytes. -/
def ST7920.set_gdram_address (st : DriverSt) (row col : Nat) :
    Except String (List Tx) :=
  if ¬ (row < st.height) then .error "Row out of range"
  else if ¬ (col < st.width / 16) then .error "Column out of range"
  else if 32 ≤ row then
    .ok [Tx.cmd (0x80 ||| (row - 32)), Tx.cmd (0x80 ||| (col + 8))]
  else
    .ok [Tx.cmd (0x80 ||| row), Tx.cmd (0x80 ||| col)]

/-- `ST7920.write_gdram_word` (driver.py lines 125-127): high byte then low
byte as data. -/
def ST7920.write_gdram_word (w : Nat) : List Tx :=
  [Tx.data ((w >>> 8) &&& 0xFF), Tx.data (w &&& 0xFF)]

/-- The inner column loop of `write_gdram_buffer` (driver.py lines
142-152) over the given column indices for one row: each changed word
(always "changed" when the baseline is absent) gets an address-set plus a
word-write. -/
def ST7920.writeColsTx (st : DriverSt) (bmp : Bitmap) (row : Nat) :
    List Nat → Except String (List Tx)
  | [] => .ok []
  | col :: cols =>
    let newWord := gridGet bmp.words row col
    let oldWord : Option Nat := st.old_buffer.map fun ob => gridGet ob.words row col
    if some newWord ≠ oldWord then
      match ST7920.set_gdram_address st row col with
      | .error e => .error e
      | .ok a =>
        match ST7920.writeColsTx st bmp row cols with
        | .error e => .error e
        | .ok rest => .ok (a ++ ST7920.write_gdram_word newWord ++ rest)
    else ST7920.writeColsTx st bmp row cols

/-- The outer row loop of `write_gdram_buffer` (driver.py line 141). -/
def ST7920.writeRowsTx (st : DriverSt) (bmp : Bitmap) :
    List Nat → Except String (List Tx)
  | [] => .ok []
  | row :: rows =>
    match ST7920.writeColsTx st bmp row (List.range (bmp.width / 16)) with
    | .error e => .error e
    | .ok txs =>
      match ST7920.writeRowsTx st bmp rows with
      | .error e => .error e
      | .ok rest => .ok (txs ++ rest)

/-- `ST7920.write_gdram_buffer` (driver.py lines 136-154): scan all words
row-major, transmit the changed ones, then store a deep copy of the
surface as the new baseline. -/
def ST7920.write_gdram_buffer (st : DriverSt) (bmp : Bitmap) :
    Except String (DriverSt × List Tx) :=
  match ST7920.writeRowsTx st bmp (List.range bmp.height) with
  | .error e => .error e
  | .ok txs => .ok ({ st with old_buffer := some bmp }, txs)

/-- The pure value of `set_gdram_address` in its in-bounds case. -/
def addrTxPure (row col : Nat) : List Tx :=
  if 32 ≤ row then [Tx.cmd (0x80 ||| (row - 32)), Tx.cmd (0x80 ||| (col + 8))]
  else [Tx.cmd (0x80 ||| row), Tx.cmd (0x80 ||| col)]

/-- The transmission one scanned word position contributes: the address-set
plus word-write pair when the word differs from the baseline (or the
baseline is absent), nothing otherwise. -/
def diffTx (st : DriverSt) (bmp : Bitmap) (row col : Nat) : List Tx :=
  if some (gridGet bmp.words row col) ≠
      st.old_buffer.map (fun ob => gridGet ob.words row col) then
    addrTxPure row col ++ ST7920.write_gdram_word (gridGet bmp.words row col)
  else []

/-- Follows the spec's words for the baseline-absent case (spec section
4.5): every word transmitted exactly once, scanning row-major then
word-index order, each as one address-set plus one word-write. -/
def specFullScan (bmp : Bitmap) : List Tx :=
  ((List.range bmp.height).map (fun r =>
    ((List.range (bmp.width / 16)).map (fun c =>
      addrTxPure r c ++ ST7920.write_gdram_word (gridGet bmp.words r c))).foldr
        (fun a b => a ++ b) [])).foldr (fun a b => a ++ b) []

/-- Result of `ST7920.set_instruction_set` (driver.py lines 81-88): the
state after the call, the bytes sent before returning or raising, and the
raised error if any.  Note the source assigns `self.extended` before any
check, and on raising leaves `self.graphics` untouched. -/
structure ISResult where
  st : DriverSt
  txs : List Tx
  err : Option String
deriving DecidableEq, Repr

/-- Driver-state constructor used by concrete instances. -/
def mkDriver (w h : Nat) (e g : Bool) (ob : Option Bitmap) : DriverSt :=
  { width := w, height := h, extended := e, graphics := g, old_buffer := ob }

/-- `ST7920.set_instruction_set(extended, graphics)` (driver.py lines
81-88). -/
def ST7920.set_instruction_set (st : DriverSt) (extended graphics : Bool) :
    ISResult :=
  let st1 := { st with extended := extended }
  let txs1 := [Tx.cmd (0x30 ||| (if extended then 4 else 0))]
  if graphics then
    if ¬ extended then
      { st := st1, txs := txs1, err := some "Graphics mode requires extended set" }
    else
      { st := { st1 with graphics := true }
        txs := txs1 ++ [Tx.cmd (0x30 ||| 4 ||| 2)], err := none }
  else { st := st1, txs := txs1, err := none }

/-! ### Heap model for the baseline deep copy (claim C7)

`write_gdram_buffer` ends with `self.old_buffer = deepcopy(bmp)`
(driver.py line 154).  To let the embedding distinguish a deep copy from a
stored alias, bitmap objects live in an explicit heap (list of objects)
addressed by references (indices), and `deepcopy` allocates a fresh
object. -/

abbrev Heap := List Bitmap

def heapGet (h : Heap) (r : Nat) : Bitmap := h.getD r (mkBitmap 0 0 .on)

/-- A mutation of the live surface named by claim C7. -/
inductive MutOp where
  | setPixM (x y : Int) (v : Bool)
  | setWordM (r c : Int) (val : Nat)
  | resetM
  | reverseM
deriving DecidableEq, Repr

def applyMut (b : Bitmap) : MutOp → Bitmap
  | .setPixM x y v => b.set_pixel x y v
  | .setWordM r c val => b.set_word r c val
  | .resetM => b.reset
  | .reverseM => b.reverse

/-- Mutate the object a reference points to, in place. -/
def heapMutate (h : Heap) (r : Nat) (op : MutOp) : Heap :=
  h.set r (applyMut (heapGet h r) op)

def heapMutates (h : Heap) (r : Nat) (ops : List MutOp) : Heap :=
  ops.foldl (fun hh op => heapMutate hh r op) h

/-- The baseline update `self.old_buffer = deepcopy(bmp)` of
`write_gdram_buffer` (driver.py line 154) in the heap model: allocate a
fresh object holding a copy of the live bitmap and return a reference to
it. -/
def snapshotBaseline (h : Heap) (live : Nat) : Heap × Nat :=
  (h ++ [heapGet h live], h.length)

/-! ### Word- and grid-level lemmas -/

theorem bitGet_eq_testBit (w i : Nat) :
    bitGet w i = if w.testBit i then 1 else 0 := by
  unfold bitGet
  rw [Nat.and_one_is_mod, Nat.shiftRight_eq_div_pow, Nat.testBit_to_div_mod]
  rcases Nat.mod_two_eq_zero_or_one (w / 2 ^ i) with h | h <;> simp [h]

theorem bitGet_or_shift (w i j : Nat) :
    bitGet (w ||| (1 <<< j)) i = if i = j then 1 else bitGet w i := by
  rw [bitGet_eq_testBit, bitGet_eq_testBit]
  have h1 : (1 : Nat) <<< j = 2 ^ j := by
    rw [Nat.shiftLeft_eq, Nat.one_mul]
  rw [h1, Nat.testBit_or]
  by_cases h : i = j
  · subst h; simp [Nat.testBit_two_pow_self]
  · simp [Nat.testBit_two_pow_of_ne (Ne.symm h), h]

theorem bitGet_and_mask (w i j : Nat) (hi : i < 16) :
    bitGet (w &&& (0xFFFF ^^^ (1 <<< j))) i = if i = j then 0 else bitGet w i := by
  rw [bitGet_eq_testBit, bitGet_eq_testBit]
  have h1 : (1 : Nat) <<< j = 2 ^ j := by
    rw [Nat.shiftLeft_eq, Nat.one_mul]
  have h2 : (0xFFFF : Nat) = 2 ^ 16 - 1 := by norm_num
  rw [h1, h2, Nat.testBit_and, Nat.testBit_xor, Nat.testBit_two_pow_sub_one]
  by_cases h : i = j
  · subst h; simp [Nat.testBit_two_pow_self, hi]
  · simp [Nat.testBit_two_pow_of_ne (Ne.symm h), hi, h]

theorem getD_set_self {α : Type} (l : List α) (i : Nat) (a d : α)
    (h : i < l.length) : (l.set i a).getD i d = a := by
  simp [List.getD_eq_getElem?_getD, List.getElem?_set_self h]

theorem getD_set_ne {α : Type} (l : List α) (i j : Nat) (a d : α)
    (h : j ≠ i) : (l.set i a).getD j d = l.getD j d := by
  simp [List.getD_eq_getElem?_getD, List.getElem?_set_ne (Ne.symm h)]

theorem gridGet_gridSet (ws : Grid) (r c v : Nat) (r' c' : Nat)
    (hr : r < ws.length) (hc : c < (ws.getD r []).length) :
    gridGet (gridSet ws r c v) r' c' =
      if r' = r ∧ c' = c then v else gridGet ws r' c' := by
  unfold gridGet gridSet
  by_cases hrr : r' = r
  · subst hrr
    rw [getD_set_self _ _ _ _ hr]
    by_cases hcc : c' = c
    · subst hcc
      rw [getD_set_self _ _ _ _ hc]
      simp
    · rw [getD_set_ne _ _ _ _ _ hcc]
      simp [hcc]
  · rw [getD_set_ne _ _ _ _ _ hrr]
    simp [hrr]

theorem gridGet_gridSet_ne_row (ws : Grid) (r c v : Nat) (r' c' : Nat)
    (hrr : r' ≠ r) :
    gridGet (gridSet ws r c v) r' c' = gridGet ws r' c' := by
  unfold gridGet gridSet
  rw [getD_set_ne _ _ _ _ _ hrr]

/-! ### Shape preservation -/

@[simp] theorem set_pixel_width (b : Bitmap) (x y : Int) (v : Bool) :
    (b.set_pixel x y v).width = b.width := by
  unfold Bitmap.set_pixel; split <;> rfl

@[simp] theorem set_pixel_height (b : Bitmap) (x y : Int) (v : Bool) :
    (b.set_pixel x y v).height = b.height := by
  unfold Bitmap.set_pixel; split <;> rfl

@[simp] theorem set_pixel_blendMode (b : Bitmap) (x y : Int) (v : Bool) :
    (b.set_pixel x y v).blendMode = b.blendMode := by
  unfold Bitmap.set_pixel; split <;> rfl

@[simp] theorem set_word_width (b : Bitmap) (v h : Int) (val : Nat) :
    (b.set_word v h val).width = b.width := by
  unfold Bitmap.set_word; split <;> rfl

@[simp] theorem set_word_height (b : Bitmap) (v h : Int) (val : Nat) :
    (b.set_word v h val).height = b.height := by
  unfold Bitmap.set_word; split <;> rfl

@[simp] theorem reset_width (b : Bitmap) : b.reset.width = b.width := rfl

@[simp] theorem reset_height (b : Bitmap) : b.reset.height = b.height := rfl

@[simp] theorem inB_set_pixel (b : Bitmap) (x' y' : Int) (v : Bool) (x y : Int) :
    (b.set_pixel x' y' v).inB x y ↔ b.inB x y := by
  unfold Bitmap.inB; simp

theorem rowLen (b : Bitmap) (hwf : b.WF) (r : Nat) (hr : r < b.height) :
    (b.words.getD r []).length = b.width / 16 := by
  obtain ⟨h1, h2⟩ := hwf
  have hr' : r < b.words.length := by omega
  have : b.words.getD r [] = b.words[r] := by
    rw [List.getD_eq_getElem?_getD, List.getElem?_eq_getElem hr']
    rfl
  rw [this]
  exact h2 _ (List.getElem_mem hr')

theorem WF_gridSet (b : Bitmap) (r c v : Nat) (b' : Bitmap)
    (hwf : b.WF) (hr : r < b.words.length)
    (hb' : b'.words = gridSet b.words r c v)
    (hw : b'.width = b.width) (hh : b'.height = b.height) : b'.WF := by
  obtain ⟨h1, h2⟩ := hwf
  constructor
  · rw [hb']; unfold gridSet; simp [h1, hh]
  · intro row hrow
    rw [hb'] at hrow
    unfold gridSet at hrow
    rcases List.mem_or_eq_of_mem_set hrow with h | h
    · rw [hw]; exact h2 _ h
    · subst h
      rw [hw, List.length_set]
      have : b.words.getD r [] = b.words[r] := by
        rw [List.getD_eq_getElem?_getD, List.getElem?_eq_getElem hr]; rfl
      rw [this]
      exact h2 _ (List.getElem_mem hr)

theorem WF_set_pixel (b : Bitmap) (x y : Int) (v : Bool) (hwf : b.WF) :
    (b.set_pixel x y v).WF := by
  unfold Bitmap.set_pixel
  split
  · rename_i hin
    refine WF_gridSet b y.toNat (x.toNat / 16) _ _ hwf ?_ rfl rfl rfl
    obtain ⟨hx0, hxw, hy0, hyh⟩ := hin
    rw [hwf.1]; omega
  · exact hwf

theorem WF_set_word (b : Bitmap) (v h : Int) (val : Nat) (hwf : b.WF) :
    (b.set_word v h val).WF := by
  unfold Bitmap.set_word
  split
  · rename_i hin
    refine WF_gridSet b v.toNat h.toNat _ _ hwf ?_ rfl rfl rfl
    rw [hwf.1]; omega
  · exact hwf

/-- Reading a bit of the word produced by a `set_pixel` write. -/
theorem bitGet_writtenWord (w j i : Nat) (v : Bool) (hi : i < 16) :
    bitGet (if v then w ||| (1 <<< j) else w &&& (0xFFFF ^^^ (1 <<< j))) i =
      if i = j then (if v then 1 else 0) else bitGet w i := by
  cases v
  · simp only [Bool.false_eq_true, if_false]
    rw [bitGet_and_mask _ _ _ hi]
  · simp only [if_true]
    rw [bitGet_or_shift]

/-- The central frame property of `set_pixel`: it writes the one requested
in-bounds bit and leaves every other pixel read unchanged. -/
theorem get_pixel_set_pixel (b : Bitmap) (x' y' x y : Int) (v : Bool)
    (hwf : b.WF) (hdvd : 16 ∣ b.width) :
    (b.set_pixel x' y' v).get_pixel x y =
      if x = x' ∧ y = y' ∧ b.inB x y then (if v then 1 else 0)
      else b.get_pixel x y := by
  by_cases hin' : b.inB x' y'
  case neg =>
    have h1 : b.set_pixel x' y' v = b := by
      unfold Bitmap.set_pixel
      rw [if_neg hin']
    have hcond : ¬(x = x' ∧ y = y' ∧ b.inB x y) := by
      rintro ⟨hx, hy, hb⟩
      exact hin' (hx ▸ hy ▸ hb)
    rw [h1, if_neg hcond]
  by_cases hin : b.inB x y
  case neg =>
    have h1 : (b.set_pixel x' y' v).get_pixel x y = 0 := by
      unfold Bitmap.get_pixel
      rw [if_neg (by simpa using hin)]
    have h2 : b.get_pixel x y = 0 := by
      unfold Bitmap.get_pixel
      rw [if_neg hin]
    rw [h1, h2, if_neg (by rintro ⟨-, -, hb⟩; exact hin hb)]
  have hgw : (b.set_pixel x' y' v).get_pixel x y =
      bitGet (gridGet (b.set_pixel x' y' v).words y.toNat (x.toNat / 16))
        (15 - x.toNat % 16) := by
    unfold Bitmap.get_pixel
    rw [if_pos (by simpa using hin)]
  have hgold : b.get_pixel x y =
      bitGet (gridGet b.words y.toNat (x.toNat / 16)) (15 - x.toNat % 16) := by
    unfold Bitmap.get_pixel
    rw [if_pos hin]
  have hinb := hin
  obtain ⟨hx0', hxw', hy0', hyh'⟩ := hin'
  obtain ⟨hx0, hxw, hy0, hyh⟩ := hin
  have hr' : y'.toNat < b.words.length := by rw [hwf.1]; omega
  have hc' : x'.toNat / 16 < (b.words.getD y'.toNat []).length := by
    rw [rowLen b hwf y'.toNat (by omega)]
    obtain ⟨k, hk⟩ := hdvd
    omega
  have hsetw : (b.set_pixel x' y' v).words =
      gridSet b.words y'.toNat (x'.toNat / 16)
        (if v then gridGet b.words y'.toNat (x'.toNat / 16) |||
            (1 <<< (15 - x'.toNat % 16))
         else gridGet b.words y'.toNat (x'.toNat / 16) &&&
            (0xFFFF ^^^ (1 <<< (15 - x'.toNat % 16)))) := by
    unfold Bitmap.set_pixel
    rw [if_pos ⟨hx0', hxw', hy0', hyh'⟩]
  by_cases hyy : y = y'
  · by_cases hxx : x = x'
    · have hL : (b.set_pixel x' y' v).get_pixel x y = (if v then 1 else 0) := by
        rw [hgw, hsetw, gridGet_gridSet _ _ _ _ _ _ hr' hc',
          if_pos (show y.toNat = y'.toNat ∧ x.toNat / 16 = x'.toNat / 16 by
            constructor <;> omega),
          bitGet_writtenWord _ _ _ _ (by omega),
          if_pos (show 15 - x.toNat % 16 = 15 - x'.toNat % 16 by omega)]
      have hcond : x = x' ∧ y = y' ∧ b.inB x y := ⟨hxx, hyy, hinb⟩
      rw [hL, if_pos hcond]
    · have hxn : x.toNat ≠ x'.toNat := by omega
      have hL : (b.set_pixel x' y' v).get_pixel x y = b.get_pixel x y := by
        rw [hgw, hsetw, hgold]
        by_cases hword : x.toNat / 16 = x'.toNat / 16
        · rw [gridGet_gridSet _ _ _ _ _ _ hr' hc',
            if_pos (show y.toNat = y'.toNat ∧ x.toNat / 16 = x'.toNat / 16 by
              constructor <;> omega),
            bitGet_writtenWord _ _ _ _ (by omega),
            if_neg (show ¬(15 - x.toNat % 16 = 15 - x'.toNat % 16) by omega)]
          rw [show y'.toNat = y.toNat by omega, ← hword]
        · rw [gridGet_gridSet _ _ _ _ _ _ hr' hc',
            if_neg (by rintro ⟨-, hc⟩; exact hword hc)]
      rw [hL, if_neg (by rintro ⟨hc, -, -⟩; exact hxx hc)]
  · have hrr : y.toNat ≠ y'.toNat := by omega
    have hL : (b.set_pixel x' y' v).get_pixel x y = b.get_pixel x y := by
      rw [hgw, hsetw, hgold, gridGet_gridSet_ne_row _ _ _ _ _ _ hrr]
    rw [hL, if_neg (by rintro ⟨-, hc, -⟩; exact hyy hc)]

/-- The frame property of `set_word`: in bounds it replaces exactly the one
addressed word, so a pixel read sees the corresponding bit of
`value & 0xFFFF` exactly when it lies in that word; every other read is
unchanged, and out-of-bounds writes change nothing. -/
theorem get_pixel_set_word (b : Bitmap) (r c : Int) (val : Nat) (x y : Int)
    (hwf : b.WF) (hdvd : 16 ∣ b.width) :
    (b.set_word r c val).get_pixel x y =
      if y = r ∧ ((x.toNat / 16 : Nat) : Int) = c ∧ b.inB x y then
        bitGet (val &&& 0xFFFF) (15 - x.toNat % 16)
      else b.get_pixel x y := by
  by_cases hwb : 0 ≤ r ∧ r < (b.height : Int) ∧ 0 ≤ c ∧ c < ((b.width / 16 : Nat) : Int)
  case neg =>
    have h1 : b.set_word r c val = b := by
      unfold Bitmap.set_word
      rw [if_neg hwb]
    have hcond : ¬(y = r ∧ ((x.toNat / 16 : Nat) : Int) = c ∧ b.inB x y) := by
      rintro ⟨hy, hc, hx0, hxw, hy0, hyh⟩
      apply hwb
      obtain ⟨k, hk⟩ := hdvd
      refine ⟨by omega, by omega, by omega, by omega⟩
    rw [h1, if_neg hcond]
  have hsetw : (b.set_word r c val).words =
      gridSet b.words r.toNat c.toNat (val &&& 0xFFFF) := by
    unfold Bitmap.set_word
    rw [if_pos hwb]
  obtain ⟨hr0, hrh, hc0, hcw⟩ := hwb
  by_cases hin : b.inB x y
  case neg =>
    have h1 : (b.set_word r c val).get_pixel x y = 0 := by
      unfold Bitmap.get_pixel
      rw [if_neg (by
        intro hcon
        apply hin
        obtain ⟨a1, a2, a3, a4⟩ := hcon
        simpa using (⟨a1, by simpa using a2, a3, by simpa using a4⟩ : b.inB x y))]
    have h2 : b.get_pixel x y = 0 := by
      unfold Bitmap.get_pixel
      rw [if_neg hin]
    rw [h1, h2, if_neg (by rintro ⟨-, -, hb⟩; exact hin hb)]
  have hgw : (b.set_word r c val).get_pixel x y =
      bitGet (gridGet (b.set_word r c val).words y.toNat (x.toNat / 16))
        (15 - x.toNat % 16) := by
    unfold Bitmap.get_pixel
    rw [if_pos (by
      obtain ⟨a1, a2, a3, a4⟩ := hin
      exact ⟨a1, by simpa using a2, a3, by simpa using a4⟩)]
  have hgold : b.get_pixel x y =
      bitGet (gridGet b.words y.toNat (x.toNat / 16)) (15 - x.toNat % 16) := by
    unfold Bitmap.get_pixel
    rw [if_pos hin]
  have hinb := hin
  obtain ⟨hx0, hxw, hy0, hyh⟩ := hin
  have hr' : r.toNat < b.words.length := by rw [hwf.1]; omega
  have hc' : c.toNat < (b.words.getD r.toNat []).length := by
    rw [rowLen b hwf r.toNat (by omega)]
    omega
  by_cases hyr : y = r
  · by_cases hxc : ((x.toNat / 16 : Nat) : Int) = c
    · have hL : (b.set_word r c val).get_pixel x y =
          bitGet (val &&& 0xFFFF) (15 - x.toNat % 16) := by
        rw [hgw, hsetw, gridGet_gridSet _ _ _ _ _ _ hr' hc',
          if_pos (show y.toNat = r.toNat ∧ x.toNat / 16 = c.toNat by
            constructor <;> omega)]
      have hcond : y = r ∧ ((x.toNat / 16 : Nat) : Int) = c ∧ b.inB x y :=
        ⟨hyr, hxc, hinb⟩
      rw [hL, if_pos hcond]
    · have hL : (b.set_word r c val).get_pixel x y = b.get_pixel x y := by
        rw [hgw, hsetw, hgold, gridGet_gridSet _ _ _ _ _ _ hr' hc',
          if_neg (by rintro ⟨-, hcc⟩; apply hxc; omega)]
      rw [hL, if_neg (by rintro ⟨-, hcc, -⟩; exact hxc hcc)]
  · have hL : (b.set_word r c val).get_pixel x y = b.get_pixel x y := by
      rw [hgw, hsetw, hgold,
        gridGet_gridSet_ne_row _ _ _ _ _ _ (show y.toNat ≠ r.toNat by omega)]
    rw [hL, if_neg (by rintro ⟨hcc, -, -⟩; exact hyr hcc)]

/-- Every pixel of an all-zero grid reads 0. -/
theorem gridGet_map_zero (ws : Grid) (r c : Nat) :
    gridGet (ws.map (fun row => row.map (fun _ => 0))) r c = 0 := by
  unfold gridGet
  simp only [List.getD_eq_getElem?_getD, List.getElem?_map]
  cases h : ws[r]? with
  | none => rfl
  | some row =>
    simp only [Option.map_some', Option.getD_some, List.getElem?_map]
    cases row[c]? <;> rfl

@[simp] theorem bitGet_zero (i : Nat) : bitGet 0 i = 0 := by
  unfold bitGet
  simp [Nat.zero_shiftRight]

/-- After `reset`, every pixel reads 0 (graphics.py line 29). -/
theorem get_pixel_reset (b : Bitmap) (x y : Int) : b.reset.get_pixel x y = 0 := by
  unfold Bitmap.get_pixel Bitmap.reset
  split
  · rw [gridGet_map_zero]; simp
  · rfl

theorem gridGet_replicate_zero (h cols r c : Nat) :
    gridGet (List.replicate h (List.replicate cols 0)) r c = 0 := by
  unfold gridGet
  simp only [List.getD_eq_getElem?_getD, List.getElem?_replicate]
  split
  · simp only [Option.getD_some, List.getElem?_replicate]
    split <;> rfl
  · rfl

/-- A fresh bitmap reads 0 everywhere. -/
theorem get_pixel_mkBitmap (w h : Nat) (bm : BlendMode) (x y : Int) :
    (mkBitmap w h bm).get_pixel x y = 0 := by
  unfold Bitmap.get_pixel mkBitmap
  split
  · rw [show gridGet (List.replicate h (List.replicate (w / 16) 0)) y.toNat
        (x.toNat / 16) = 0 from gridGet_replicate_zero _ _ _ _]
    simp
  · rfl

theorem WF_mkBitmap (w h : Nat) (bm : BlendMode) : (mkBitmap w h bm).WF := by
  constructor
  · simp [mkBitmap]
  · intro row hrow
    simp only [mkBitmap] at hrow ⊢
    rw [List.eq_of_mem_replicate hrow]
    simp

theorem WF_reset (b : Bitmap) (hwf : b.WF) : b.reset.WF := by
  obtain ⟨h1, h2⟩ := hwf
  constructor
  · simp [Bitmap.reset, h1]
  · intro row hrow
    simp only [Bitmap.reset, List.mem_map] at hrow
    obtain ⟨r0, hr0, hmap⟩ := hrow
    subst hmap
    simpa [Bitmap.reset] using h2 _ hr0

theorem WF_reverse (b : Bitmap) (hwf : b.WF) : b.reverse.WF := by
  obtain ⟨h1, h2⟩ := hwf
  constructor
  · simp [Bitmap.reverse, h1]
  · intro row hrow
    simp only [Bitmap.reverse, List.mem_map] at hrow
    obtain ⟨r0, hr0, hmap⟩ := hrow
    subst hmap
    simpa [Bitmap.reverse] using h2 _ hr0

@[simp] theorem reverse_width (b : Bitmap) : b.reverse.width = b.width := rfl

@[simp] theorem reverse_height (b : Bitmap) : b.reverse.height = b.height := rfl

@[simp] theorem applyOp_width (b : Bitmap) (op : PixOp) :
    (applyOp b op).width = b.width := by
  cases op <;> simp [applyOp]

@[simp] theorem applyOp_height (b : Bitmap) (op : PixOp) :
    (applyOp b op).height = b.height := by
  cases op <;> simp [applyOp]

theorem WF_applyOp (b : Bitmap) (op : PixOp) (hwf : b.WF) : (applyOp b op).WF := by
  cases op
  · exact WF_set_pixel _ _ _ _ hwf
  · exact WF_set_word _ _ _ _ hwf

theorem get_pixel_applyOp (b : Bitmap) (op : PixOp) (x y : Int)
    (hwf : b.WF) (hdvd : 16 ∣ b.width) :
    (applyOp b op).get_pixel x y =
      (opWrite b.width b.height x y op).getD (b.get_pixel x y) := by
  cases op with
  | setPix x' y' v =>
    show (b.set_pixel x' y' v).get_pixel x y = _
    rw [get_pixel_set_pixel _ _ _ _ _ _ hwf hdvd]
    simp only [opWrite]
    by_cases hc : x = x' ∧ y = y' ∧ b.inB x y
    · have hc2 : x = x' ∧ y = y' ∧
          (0 ≤ x ∧ x < (b.width : Int) ∧ 0 ≤ y ∧ y < (b.height : Int)) :=
        ⟨hc.1, hc.2.1, hc.2.2⟩
      rw [if_pos hc, if_pos hc2]
      rfl
    · have hc2 : ¬(x = x' ∧ y = y' ∧
          (0 ≤ x ∧ x < (b.width : Int) ∧ 0 ≤ y ∧ y < (b.height : Int))) := by
        rintro ⟨a1, a2, a3⟩; exact hc ⟨a1, a2, a3⟩
      rw [if_neg hc, if_neg hc2]
      rfl
  | setWordOp r c val =>
    show (b.set_word r c val).get_pixel x y = _
    rw [get_pixel_set_word _ _ _ _ _ _ hwf hdvd]
    simp only [opWrite]
    by_cases hc : y = r ∧ ((x.toNat / 16 : Nat) : Int) = c ∧ b.inB x y
    · have hc2 : y = r ∧ ((x.toNat / 16 : Nat) : Int) = c ∧
          (0 ≤ x ∧ x < (b.width : Int) ∧ 0 ≤ y ∧ y < (b.height : Int)) :=
        ⟨hc.1, hc.2.1, hc.2.2⟩
      rw [if_pos hc, if_pos hc2]
      rfl
    · have hc2 : ¬(y = r ∧ ((x.toNat / 16 : Nat) : Int) = c ∧
          (0 ≤ x ∧ x < (b.width : Int) ∧ 0 ≤ y ∧ y < (b.height : Int))) := by
        rintro ⟨a1, a2, a3⟩; exact hc ⟨a1, a2, a3⟩
      rw [if_neg hc, if_neg hc2]
      rfl

theorem lastWrite_shift (W H : Nat) (x y : Int) (ops : List PixOp) :
    ∀ (acc : Option Nat) (z : Nat),
      (ops.foldl (fun acc op =>
        match opWrite W H x y op with
        | some v => some v
        | none => acc) acc).getD z =
      (lastWrite W H x y ops).getD (acc.getD z) := by
  induction ops with
  | nil => intro acc z; rfl
  | cons op rest ih =>
    intro acc z
    unfold lastWrite
    simp only [List.foldl_cons]
    rw [ih, ih]
    congr 1
    cases hw : opWrite W H x y op <;> simp [hw]

theorem lastWrite_cons (W H : Nat) (x y : Int) (op : PixOp) (rest : List PixOp)
    (z : Nat) :
    (lastWrite W H x y (op :: rest)).getD z =
      (lastWrite W H x y rest).getD ((opWrite W H x y op).getD z) := by
  conv_lhs => unfold lastWrite
  rw [List.foldl_cons, lastWrite_shift]
  congr 1
  cases hw : opWrite W H x y op <;> simp [hw]

/-- Last-writer-wins for a whole sequence of surface writes. -/
theorem get_pixel_applyOps (b : Bitmap) (ops : List PixOp) (x y : Int)
    (hwf : b.WF) (hdvd : 16 ∣ b.width) :
    (applyOps b ops).get_pixel x y =
      (lastWrite b.width b.height x y ops).getD (b.get_pixel x y) := by
  induction ops generalizing b hwf hdvd with
  | nil => rfl
  | cons op rest ih =>
    show (applyOps (applyOp b op) rest).get_pixel x y = _
    rw [ih (applyOp b op) (WF_applyOp _ _ hwf) (by simpa using hdvd),
      applyOp_width, applyOp_height,
      get_pixel_applyOp _ _ _ _ hwf hdvd, lastWrite_cons]

/-! ### Blend-grid lemmas -/

theorem gridGet_zipWith (f : Nat → Nat → Nat) (a d : Grid) (r c : Nat)
    (h1 : r < a.length) (h2 : r < d.length)
    (h3 : c < (a.getD r []).length) (h4 : c < (d.getD r []).length) :
    gridGet (List.zipWith (fun ra rd => List.zipWith f ra rd) a d) r c =
      f (gridGet a r c) (gridGet d r c) := by
  unfold gridGet
  have hz : r < (List.zipWith (fun ra rd => List.zipWith f ra rd) a d).length := by
    rw [List.length_zipWith]; omega
  have e1 : a.getD r [] = a[r] := by
    rw [List.getD_eq_getElem?_getD, List.getElem?_eq_getElem h1]; rfl
  have e2 : d.getD r [] = d[r] := by
    rw [List.getD_eq_getElem?_getD, List.getElem?_eq_getElem h2]; rfl
  have ez : (List.zipWith (fun ra rd => List.zipWith f ra rd) a d).getD r [] =
      List.zipWith f a[r] d[r] := by
    rw [List.getD_eq_getElem?_getD, List.getElem?_eq_getElem hz]
    simp [List.getElem_zipWith]
  rw [ez, e1, e2]
  have h3' : c < a[r].length := by rw [← e1]; exact h3
  have h4' : c < d[r].length := by rw [← e2]; exact h4
  have hzc : c < (List.zipWith f a[r] d[r]).length := by
    rw [List.length_zipWith]; omega
  rw [List.getD_eq_getElem?_getD (List.zipWith f a[r] d[r]),
    List.getElem?_eq_getElem hzc]
  simp only [Option.getD_some, List.getElem_zipWith]
  rw [List.getD_eq_getElem?_getD a[r], List.getElem?_eq_getElem h3',
    List.getD_eq_getElem?_getD d[r], List.getElem?_eq_getElem h4']
  rfl

theorem gridGet_blendGrid (bm : BlendMode) (a d : Grid) (r c : Nat)
    (h1 : r < a.length) (h2 : r < d.length)
    (h3 : c < (a.getD r []).length) (h4 : c < (d.getD r []).length) :
    gridGet (blendGrid bm a d) r c =
      blendWord bm (gridGet a r c) (gridGet d r c) :=
  gridGet_zipWith (blendWord bm) a d r c h1 h2 h3 h4

/-! ## Claim theorems -/

/-- C1: the claim says every drawable's `draw()` clears the dirty flag (in
particular `GraphicsBuffer.draw()` before returning the accumulator), so
that a second call performs no recomputation.  The code contradicts it:
`GraphicsBuffer.draw` never assigns `_is_dirty = False`, so after a
successful top-level draw the container's flag is still set (while its
`Line` child's flag, for contrast, is cleared as claimed). -/
theorem c1_graphicsBufferDraw_leaves_flag_set :
    (match gbDraw (.buffer (mkBitmap 16 1 .on) [.line 0 0 0 0 (mkBitmap 16 1 .on)]) with
     | .ok (b, n) => some (b.isDirty, nodeFlagAt [0] n)
     | .error _ => none) = some (true, false)
  ∧ (lineDraw 0 0 0 0 (mkBitmap 16 1 .on)).isDirty = false := by
  constructor
  · rfl
  · rfl

/-- C3: mutation (here `dirty()` on a leaf nested two containers deep)
does set the flag on the leaf and on every ancestor up to the root, as
claimed; but after `draw()` on a (one-level) container the container's own
flag is still `true`, contradicting the claim's "the dirty flag is false
on every node of that subtree" (the child's flag is cleared). -/
theorem c3_dirty_propagates_but_container_flag_survives_draw :
    (let outer := Node.buffer { mkBitmap 16 1 .on with isDirty := false }
        [Node.buffer { mkBitmap 16 1 .on with isDirty := false }
          [Node.line 5 0 9 0 { mkBitmap 16 1 .on with isDirty := false }]]
     let t := markDirtyAt [0, 0] outer
     nodeFlagAt [] t = true ∧ nodeFlagAt [0] t = true ∧
       nodeFlagAt [0, 0] t = true)
  ∧ (match gbDraw (.buffer (mkBitmap 16 1 .on)
        [.line 0 0 0 0 (mkBitmap 16 1 .on)]) with
     | .ok (b, n) => some (b.isDirty, nodeFlagAt [0] n)
     | .error _ => none) = some (true, false) := by
  constructor
  · exact ⟨rfl, rfl, rfl⟩
  · rfl

/-- C4: the claim says a `GraphicsBuffer` nested inside another draws like
any child.  The code contradicts it: `GraphicsBuffer.draw` is declared
with no width/height parameters while the compositor calls
`c.draw(self.width, self.height)`, so drawing a buffer that contains a
buffer raises `TypeError`. -/
theorem c4_nested_buffer_draw_raises :
    gbDraw (.buffer (mkBitmap 16 1 .on) [.buffer (mkBitmap 16 1 .on) []]) =
      .error "TypeError: GraphicsBuffer.draw takes 1 positional argument but 3 were given" := by
  rfl

/-- C5: `GraphicsBuffer.draw` combines each child's rendered words into the
accumulator per the child's blend mode — at every bit, ON is disjunction,
OFF is conjunction with the complement, XOR is exclusive or — and
composition order matters: an overlapping ON/OFF pair yields different
surfaces under the two orders. -/
theorem c5_blend_semantics_and_order_sensitivity :
    (∀ (bm : BlendMode) (a d : Grid) (r c i : Nat),
      r < a.length → r < d.length →
      c < (a.getD r []).length → c < (d.getD r []).length → i < 16 →
      (gridGet (blendGrid bm a d) r c).testBit i =
        (match bm with
         | .on => ((gridGet a r c).testBit i || (gridGet d r c).testBit i)
         | .off => ((gridGet a r c).testBit i && !((gridGet d r c).testBit i))
         | .xor => (((gridGet a r c).testBit i).xor ((gridGet d r c).testBit i))))
  ∧ (∃ A B : Node,
      A.bmpOf.blendMode = .on ∧ B.bmpOf.blendMode = .off ∧
      drawnPixel 16 1 A 0 0 = 1 ∧ drawnPixel 16 1 B 0 0 = 1 ∧
      gbWords (.buffer (mkBitmap 16 1 .on) [A, B]) ≠
        gbWords (.buffer (mkBitmap 16 1 .on) [B, A])) := by
  constructor
  · intro bm a d r c i h1 h2 h3 h4 hi
    rw [gridGet_blendGrid bm a d r c h1 h2 h3 h4]
    cases bm
    · simp only [blendWord]
      rw [Nat.testBit_or]
    · simp only [blendWord]
      rw [Nat.testBit_and, Nat.testBit_xor,
        show (0xFFFF : Nat) = 2 ^ 16 - 1 by norm_num,
        Nat.testBit_two_pow_sub_one]
      simp [hi]
    · simp only [blendWord]
      rw [Nat.testBit_xor]
  · refine ⟨.line 0 0 0 0 (mkBitmap 16 1 .on),
      .line 0 0 0 0 (mkBitmap 16 1 .off), rfl, rfl, rfl, rfl, ?_⟩
    decide

/-- Witness for C5: the OFF-blend bit equation at a concrete word. -/
theorem c5_witness :
    (gridGet (blendGrid .off [[65535]] [[32768]]) 0 0).testBit 15 =
      ((gridGet [[65535]] 0 0).testBit 15 && !((gridGet [[32768]] 0 0).testBit 15)) :=
  c5_blend_semantics_and_order_sensitivity.1 .off [[65535]] [[32768]] 0 0 15
    (by decide) (by decide) (by decide) (by decide) (by decide)

/-- C9 (amended): `set_instruction_set` raises exactly when `graphics` is
requested without `extended`; when it raises, the `graphics` flag is left
unchanged by the call (so it is never set to true by a raising call), while
`extended` has already been overwritten with the argument. -/
theorem c9_set_instruction_set_raise_behavior (st : DriverSt) (e g : Bool) :
    ((ST7920.set_instruction_set st e g).err.isSome ↔ (g = true ∧ e = false))
  ∧ ((ST7920.set_instruction_set st e g).err.isSome →
      (ST7920.set_instruction_set st e g).st.graphics = st.graphics ∧
      (ST7920.set_instruction_set st e g).st.extended = e) := by
  cases e <;> cases g <;> simp [ST7920.set_instruction_set]

/-- Witness for C9's theorem at a concrete raising call. -/
theorem c9_witness :
    (ST7920.set_instruction_set (mkDriver 128 64 true true none)
        false true).st.graphics = (mkDriver 128 64 true true none).graphics ∧
    (ST7920.set_instruction_set (mkDriver 128 64 true true none)
        false true).st.extended = false :=
  (c9_set_instruction_set_raise_behavior
    (mkDriver 128 64 true true none) false true).2 (by decide)

/-- C9 counterexample to the claim as stated: starting from the reachable
state in which graphics mode is already enabled (one prior
`set_instruction_set(True, True)` from the initial state), the raising
call `set_instruction_set(False, True)` leaves the graphics flag `true`,
not `false`. -/
theorem c9_counterexample :
    ((ST7920.set_instruction_set
        (ST7920.set_instruction_set (mkDriver 128 64 false false none)
          true true).st false true).err.isSome = true) ∧
    ((ST7920.set_instruction_set
        (ST7920.set_instruction_set (mkDriver 128 64 false false none)
          true true).st false true).st.graphics = true) := by
  exact ⟨rfl, rfl⟩

/-- C10: `GraphicsBuffer.add` appends the drawable at the end of the child
sequence (placing it under the container, which is the parent
back-reference in tree form) and leaves the container's own bitmap — dirty
flag and cached words alike — untouched, so a clean container still
returns its cached surface from `draw()` after an `add`. -/
theorem c10_add_appends_and_preserves (bmp : Bitmap) (cs : List Node) (d : Node) :
    gbAdd (.buffer bmp cs) d = .buffer bmp (cs ++ [d])
  ∧ (bmp.isDirty = false →
      gbDraw (gbAdd (.buffer bmp cs) d) = .ok (bmp, .buffer bmp (cs ++ [d]))) := by
  constructor
  · rfl
  · intro h
    show gbDraw (.buffer bmp (cs ++ [d])) = _
    simp only [gbDraw, h]
    simp

/-- Witness for C10 at a concrete clean buffer. -/
theorem c10_witness :
    gbAdd (.buffer { mkBitmap 16 1 .on with isDirty := false } [])
        (.line 0 0 3 0 (mkBitmap 16 1 .on)) =
      .buffer { mkBitmap 16 1 .on with isDirty := false }
        [.line 0 0 3 0 (mkBitmap 16 1 .on)]
  ∧ gbDraw (gbAdd (.buffer { mkBitmap 16 1 .on with isDirty := false } [])
        (.line 0 0 3 0 (mkBitmap 16 1 .on))) =
      .ok ({ mkBitmap 16 1 .on with isDirty := false },
        .buffer { mkBitmap 16 1 .on with isDirty := false }
          [.line 0 0 3 0 (mkBitmap 16 1 .on)]) :=
  ⟨(c10_add_appends_and_preserves _ _ _).1,
   (c10_add_appends_and_preserves _ _ _).2 rfl⟩

/-- C6: for any sequence of `set_pixel`/`set_word` calls, an in-bounds
`get_pixel` returns the last value written at that pixel (falling back to
the prior surface content when none of the calls touched it — in
particular a single call leaves every other pixel unchanged); out-of-bounds
`set_pixel`/`set_word` calls change nothing and raise nothing; and
out-of-bounds `get_pixel` reads 0 regardless of all prior writes. -/
theorem c6_surface_roundtrip :
    (∀ (b : Bitmap) (ops : List PixOp) (x y : Int), b.WF → 16 ∣ b.width →
      (applyOps b ops).get_pixel x y =
        (lastWrite b.width b.height x y ops).getD (b.get_pixel x y))
  ∧ (∀ (b : Bitmap) (x y : Int) (v : Bool), ¬ b.inB x y → b.set_pixel x y v = b)
  ∧ (∀ (b : Bitmap) (r c : Int) (val : Nat),
      ¬ (0 ≤ r ∧ r < (b.height : Int) ∧ 0 ≤ c ∧
          c < ((b.width / 16 : Nat) : Int)) →
      b.set_word r c val = b)
  ∧ (∀ (b : Bitmap) (r c : Int) (val : Nat), b.WF →
      (0 ≤ r ∧ r < (b.height : Int) ∧ 0 ≤ c ∧
          c < ((b.width / 16 : Nat) : Int)) →
      gridGet (b.set_word r c val).words r.toNat c.toNat = (val &&& 0xFFFF) ∧
      (∀ r' c' : Nat, ¬ (r' = r.toNat ∧ c' = c.toNat) →
        gridGet (b.set_word r c val).words r' c' = gridGet b.words r' c'))
  ∧ (∀ (b : Bitmap) (x y : Int), ¬ b.inB x y → b.get_pixel x y = 0) := by
  refine ⟨fun b ops x y hwf hdvd => get_pixel_applyOps b ops x y hwf hdvd,
    ?_, ?_, ?_, ?_⟩
  · intro b x y v h
    unfold Bitmap.set_pixel
    rw [if_neg h]
  · intro b r c val h
    unfold Bitmap.set_word
    rw [if_neg h]
  · intro b r c val hwf hb
    have hsetw : (b.set_word r c val).words =
        gridSet b.words r.toNat c.toNat (val &&& 0xFFFF) := by
      unfold Bitmap.set_word
      rw [if_pos hb]
    have hr : r.toNat < b.words.length := by rw [hwf.1]; omega
    have hc : c.toNat < (b.words.getD r.toNat []).length := by
      rw [rowLen b hwf r.toNat (by omega)]; omega
    constructor
    · rw [hsetw, gridGet_gridSet _ _ _ _ _ _ hr hc, if_pos ⟨rfl, rfl⟩]
    · intro r' c' hne
      rw [hsetw, gridGet_gridSet _ _ _ _ _ _ hr hc, if_neg hne]
  · intro b x y h
    unfold Bitmap.get_pixel
    rw [if_neg h]

/-- Witness for C6: last-writer-wins evaluated on a concrete surface and
call sequence. -/
theorem c6_witness :
    (applyOps (mkBitmap 16 1 .on)
        [.setPix 3 0 true, .setPix 3 0 false,
         .setWordOp 0 0 33059]).get_pixel 3 0 =
      (lastWrite 16 1 3 0
        [.setPix 3 0 true, .setPix 3 0 false,
         .setWordOp 0 0 33059]).getD ((mkBitmap 16 1 .on).get_pixel 3 0) :=
  c6_surface_roundtrip.1 (mkBitmap 16 1 .on)
    [.setPix 3 0 true, .setPix 3 0 false, .setWordOp 0 0 33059] 3 0
    (by decide) (by decide)

/-- Mutating one heap object leaves every other reference's content
unchanged. -/
theorem heapGet_heapMutates_ne (hh : Heap) (r r' : Nat) (ops : List MutOp)
    (hne : r' ≠ r) : heapGet (heapMutates hh r ops) r' = heapGet hh r' := by
  induction ops generalizing hh with
  | nil => rfl
  | cons op rest ih =>
    show heapGet (heapMutates (heapMutate hh r op) r rest) r' = _
    rw [ih (heapMutate hh r op)]
    unfold heapMutate heapGet
    rw [getD_set_ne _ _ _ _ _ hne]

/-- C7: after `write_gdram_buffer` snapshots the baseline (a deep copy,
hence a freshly allocated heap object), any sequence of mutations of the
live surface — `set_pixel`, `set_word`, `reset`, `reverse` — leaves the
recorded baseline object holding exactly the value the live surface had
when the snapshot was taken. -/
theorem c7_baseline_is_deep_copy (h : Heap) (live : Nat)
    (hl : live < h.length) (ops : List MutOp) :
    heapGet (heapMutates (snapshotBaseline h live).1 live ops)
      (snapshotBaseline h live).2 = heapGet h live := by
  show heapGet (heapMutates (h ++ [heapGet h live]) live ops) h.length = _
  rw [heapGet_heapMutates_ne _ _ _ _ (by omega)]
  unfold heapGet
  rw [List.getD_eq_getElem?_getD, List.getElem?_concat_length]
  rfl

/-- Witness for C7 on a concrete one-object heap. -/
theorem c7_witness :
    heapGet (heapMutates (snapshotBaseline [mkBitmap 16 1 .on] 0).1 0
        [.setPixM 0 0 true, .reverseM])
      (snapshotBaseline [mkBitmap 16 1 .on] 0).2 =
      heapGet [mkBitmap 16 1 .on] 0 :=
  c7_baseline_is_deep_copy [mkBitmap 16 1 .on] 0 (by decide)
    [.setPixM 0 0 true, .reverseM]

/-! ### Differential-writer lemmas (claim C2) -/

theorem set_gdram_address_ok (st : DriverSt) (row col : Nat)
    (hr : row < st.height) (hc : col < st.width / 16) :
    ST7920.set_gdram_address st row col = .ok (addrTxPure row col) := by
  unfold ST7920.set_gdram_address addrTxPure
  rw [if_neg (not_not_intro hr), if_neg (not_not_intro hc)]
  split <;> rfl

theorem writeColsTx_ok (st : DriverSt) (bmp : Bitmap) (row : Nat)
    (hrow : row < st.height) (cols : List Nat)
    (hcols : ∀ c ∈ cols, c < st.width / 16) :
    ST7920.writeColsTx st bmp row cols =
      .ok (cols.foldr (fun c rest => diffTx st bmp row c ++ rest) []) := by
  induction cols with
  | nil => rfl
  | cons c cs ih =>
    have hc : c < st.width / 16 := hcols c (by simp)
    have ihh := ih (fun c' hc' => hcols c' (by simp [hc']))
    show (if some (gridGet bmp.words row c) ≠
        st.old_buffer.map (fun ob => gridGet ob.words row c) then _ else _) = _
    by_cases hdiff : some (gridGet bmp.words row c) ≠
        st.old_buffer.map (fun ob => gridGet ob.words row c)
    · rw [if_pos hdiff]
      rw [set_gdram_address_ok st row c hrow hc, ihh]
      show Except.ok _ = Except.ok _
      rw [List.foldr_cons]
      unfold diffTx
      rw [if_pos hdiff, List.append_assoc]
    · rw [if_neg hdiff, ihh]
      rw [List.foldr_cons]
      unfold diffTx
      rw [if_neg hdiff, List.nil_append]

theorem writeRowsTx_ok (st : DriverSt) (bmp : Bitmap)
    (hW : bmp.width / 16 ≤ st.width / 16) (rows : List Nat)
    (hrows : ∀ r ∈ rows, r < st.height) :
    ST7920.writeRowsTx st bmp rows =
      .ok (rows.foldr (fun r rest =>
        ((List.range (bmp.width / 16)).foldr
          (fun c rest2 => diffTx st bmp r c ++ rest2) []) ++ rest) []) := by
  induction rows with
  | nil => rfl
  | cons r rs ih =>
    have hr : r < st.height := hrows r (by simp)
    have ihh := ih (fun r' hr' => hrows r' (by simp [hr']))
    simp only [ST7920.writeRowsTx]
    rw [writeColsTx_ok st bmp r hr _
      (fun c hcm => lt_of_lt_of_le (List.mem_range.1 hcm) hW), ihh]
    rfl

theorem write_gdram_buffer_ok (st : DriverSt) (bmp : Bitmap)
    (hH : bmp.height ≤ st.height) (hW : bmp.width / 16 ≤ st.width / 16) :
    ST7920.write_gdram_buffer st bmp =
      .ok ({ st with old_buffer := some bmp },
        (List.range bmp.height).foldr (fun r rest =>
          ((List.range (bmp.width / 16)).foldr
            (fun c rest2 => diffTx st bmp r c ++ rest2) []) ++ rest) []) := by
  unfold ST7920.write_gdram_buffer
  rw [writeRowsTx_ok st bmp hW _
    (fun r hrm => lt_of_lt_of_le (List.mem_range.1 hrm) hH)]

theorem foldr_append_all_nil {α : Type} (l : List α) (f : α → List Tx)
    (h : ∀ a ∈ l, f a = []) :
    l.foldr (fun a rest => f a ++ rest) [] = [] := by
  induction l with
  | nil => rfl
  | cons a t ih =>
    rw [List.foldr_cons, h a (by simp), List.nil_append]
    exact ih (fun a' ha' => h a' (by simp [ha']))

theorem foldr_append_congr {α : Type} (l : List α) (f g : α → List Tx)
    (h : ∀ a ∈ l, f a = g a) :
    l.foldr (fun a rest => f a ++ rest) [] =
      l.foldr (fun a rest => g a ++ rest) [] := by
  induction l with
  | nil => rfl
  | cons a t ih =>
    rw [List.foldr_cons, List.foldr_cons, h a (by simp),
      ih (fun a' ha' => h a' (by simp [ha']))]

theorem foldr_append_single {α : Type} [DecidableEq α] (l : List α)
    (f : α → List Tx) (a0 : α) (hmem : a0 ∈ l) (hnd : l.Nodup)
    (h : ∀ a ∈ l, a ≠ a0 → f a = []) :
    l.foldr (fun a rest => f a ++ rest) [] = f a0 := by
  induction l with
  | nil => cases hmem
  | cons a t ih =>
    rw [List.foldr_cons]
    by_cases ha : a = a0
    · subst ha
      have hnot : a ∉ t := (List.nodup_cons.1 hnd).1
      rw [foldr_append_all_nil t f
        (fun a' ha' => h a' (by simp [ha'])
          (by rintro rfl; exact hnot ha')), List.append_nil]
    · rw [h a (by simp) ha, List.nil_append]
      exact ih (by rcases List.mem_cons.1 hmem with h' | h'
                   · exact absurd h'.symm ha
                   · exact h')
        ((List.nodup_cons.1 hnd).2)
        (fun a' ha' => h a' (by simp [ha']))

/-- C2: the differential writer.  With no baseline, the transmission is
exactly the full row-major, word-index-ordered scan, one address-set plus
word-write per word; with an identical baseline, nothing is transmitted;
with a baseline differing in exactly one word, exactly that word's
address-set plus word-write pair is transmitted.  In every case the
baseline is replaced by the written surface. -/
theorem c2_differential_write (st : DriverSt) (bmp : Bitmap)
    (hH : bmp.height ≤ st.height) (hW : bmp.width / 16 ≤ st.width / 16) :
    (st.old_buffer = none →
      ST7920.write_gdram_buffer st bmp =
        .ok ({ st with old_buffer := some bmp }, specFullScan bmp))
  ∧ (∀ ob, st.old_buffer = some ob →
      (∀ r c, r < bmp.height → c < bmp.width / 16 →
        gridGet ob.words r c = gridGet bmp.words r c) →
      ST7920.write_gdram_buffer st bmp =
        .ok ({ st with old_buffer := some bmp }, []))
  ∧ (∀ ob r0 c0, st.old_buffer = some ob →
      r0 < bmp.height → c0 < bmp.width / 16 →
      gridGet ob.words r0 c0 ≠ gridGet bmp.words r0 c0 →
      (∀ r c, r < bmp.height → c < bmp.width / 16 → ¬(r = r0 ∧ c = c0) →
        gridGet ob.words r c = gridGet bmp.words r c) →
      ST7920.write_gdram_buffer st bmp =
        .ok ({ st with old_buffer := some bmp },
          addrTxPure r0 c0 ++
            ST7920.write_gdram_word (gridGet bmp.words r0 c0))) := by
  refine ⟨?_, ?_, ?_⟩
  · intro hnone
    rw [write_gdram_buffer_ok st bmp hH hW]
    unfold specFullScan
    simp only [List.foldr_map]
    congr 1
    congr 1
    apply foldr_append_congr
    intro r _
    apply foldr_append_congr
    intro c _
    unfold diffTx
    rw [hnone]
    simp
  · intro ob hsome heq
    rw [write_gdram_buffer_ok st bmp hH hW]
    congr 1
    congr 1
    apply foldr_append_all_nil
    intro r hrm
    apply foldr_append_all_nil
    intro c hcm
    unfold diffTx
    rw [hsome]
    rw [if_neg ?_]
    simp only [Option.map_some', ne_eq, Option.some.injEq, not_not]
    exact (heq r c (List.mem_range.1 hrm) (List.mem_range.1 hcm)).symm
  · intro ob r0 c0 hsome hr0 hc0 hdiff hsame
    rw [write_gdram_buffer_ok st bmp hH hW]
    congr 1
    congr 1
    have hrowr0 : ((List.range (bmp.width / 16)).foldr
        (fun c rest2 => diffTx st bmp r0 c ++ rest2) []) =
        diffTx st bmp r0 c0 := by
      apply foldr_append_single _ _ c0 (List.mem_range.2 hc0)
        (List.nodup_range _)
      intro c hcm hne
      unfold diffTx
      rw [hsome]
      rw [if_neg ?_]
      simp only [Option.map_some', ne_eq, Option.some.injEq, not_not]
      exact (hsame r0 c hr0 (List.mem_range.1 hcm)
        (by rintro ⟨-, rfl⟩; exact hne rfl)).symm
    have hrow_other : ∀ r, r ≠ r0 → r < bmp.height →
        ((List.range (bmp.width / 16)).foldr
          (fun c rest2 => diffTx st bmp r c ++ rest2) []) = [] := by
      intro r hne hr
      apply foldr_append_all_nil
      intro c hcm
      unfold diffTx
      rw [hsome]
      rw [if_neg ?_]
      simp only [Option.map_some', ne_eq, Option.some.injEq, not_not]
      exact (hsame r c hr (List.mem_range.1 hcm)
        (by rintro ⟨rfl, -⟩; exact hne rfl)).symm
    have hfinal : (List.range bmp.height).foldr (fun r rest =>
        ((List.range (bmp.width / 16)).foldr
          (fun c rest2 => diffTx st bmp r c ++ rest2) []) ++ rest) [] =
        ((List.range (bmp.width / 16)).foldr
          (fun c rest2 => diffTx st bmp r0 c ++ rest2) []) := by
      apply foldr_append_single (List.range bmp.height)
        (fun r => ((List.range (bmp.width / 16)).foldr
          (fun c rest2 => diffTx st bmp r c ++ rest2) []))
        r0 (List.mem_range.2 hr0) (List.nodup_range _)
        (fun r hrm hne => hrow_other r hne (List.mem_range.1 hrm))
    rw [hfinal, hrowr0]
    unfold diffTx
    rw [hsome]
    rw [if_pos ?_]
    simp only [Option.map_some', ne_eq, Option.some.injEq]
    exact fun hcon => hdiff hcon.symm

/-- Witness for C2: the full scan of a fresh 16 x 2 surface against an
absent baseline. -/
theorem c2_witness :
    ST7920.write_gdram_buffer (mkDriver 16 2 false false none)
        (mkBitmap 16 2 .on) =
      .ok ({ mkDriver 16 2 false false none with
          old_buffer := some (mkBitmap 16 2 .on) },
        specFullScan (mkBitmap 16 2 .on)) :=
  (c2_differential_write (mkDriver 16 2 false false none) (mkBitmap 16 2 .on)
    (by decide) (by decide)).1 rfl

/-! ### Triangle scanline-fill lemmas (claim C8) -/

theorem ite_or_combine (A B C : Prop) [Decidable A] [Decidable B]
    [Decidable C] (h : C ↔ A ∨ B) (v g : Nat) :
    (if A then v else if B then v else g) = if C then v else g := by
  by_cases ha : A
  · rw [if_pos ha, if_pos (h.2 (Or.inl ha))]
  · rw [if_neg ha]
    by_cases hb : B
    · rw [if_pos hb, if_pos (h.2 (Or.inr hb))]
    · rw [if_neg hb, if_neg (fun hc => (h.1 hc).elim ha hb)]

theorem mem_intRange (a bb x : Int) : x ∈ intRange a bb ↔ a ≤ x ∧ x ≤ bb := by
  unfold intRange
  constructor
  · intro hmem
    obtain ⟨i, hi, hx⟩ := List.mem_map.1 hmem
    have hi' := List.mem_range.1 hi
    omega
  · intro ⟨h1, h2⟩
    exact List.mem_map.2 ⟨(x - a).toNat, List.mem_range.2 (by omega), by omega⟩

theorem foldl_set_pixel_width (xs : List Int) (yr : Int) (b : Bitmap) :
    (xs.foldl (fun bb x' => bb.set_pixel x' yr true) b).width = b.width := by
  induction xs generalizing b with
  | nil => rfl
  | cons x0 xs ih => rw [List.foldl_cons, ih]; simp

theorem foldl_set_pixel_height (xs : List Int) (yr : Int) (b : Bitmap) :
    (xs.foldl (fun bb x' => bb.set_pixel x' yr true) b).height = b.height := by
  induction xs generalizing b with
  | nil => rfl
  | cons x0 xs ih => rw [List.foldl_cons, ih]; simp

theorem WF_foldl_set_pixel (xs : List Int) (yr : Int) (b : Bitmap)
    (hwf : b.WF) : (xs.foldl (fun bb x' => bb.set_pixel x' yr true) b).WF := by
  induction xs generalizing b with
  | nil => exact hwf
  | cons x0 xs ih =>
    rw [List.foldl_cons]
    exact ih _ (WF_set_pixel _ _ _ _ hwf)

/-- A row of `set_pixel true` calls inks exactly its own pixels in its own
row and preserves the rest. -/
theorem get_pixel_foldl_set_pixel (xs : List Int) (yr : Int) (b : Bitmap)
    (x y : Int) (hwf : b.WF) (hdvd : 16 ∣ b.width) :
    (xs.foldl (fun bb x' => bb.set_pixel x' yr true) b).get_pixel x y =
      if x ∈ xs ∧ y = yr ∧ b.inB x y then 1 else b.get_pixel x y := by
  induction xs generalizing b with
  | nil =>
    rw [List.foldl_nil, if_neg (by rintro ⟨h, -, -⟩; cases h)]
  | cons x0 xs ih =>
    rw [List.foldl_cons,
      ih (b.set_pixel x0 yr true) (WF_set_pixel _ _ _ _ hwf) (by simpa using hdvd)]
    have hset : (b.set_pixel x0 yr true).get_pixel x y =
        if x = x0 ∧ y = yr ∧ b.inB x y then 1 else b.get_pixel x y := by
      rw [get_pixel_set_pixel _ _ _ _ _ _ hwf hdvd]
      rfl
    rw [hset]
    simp only [inB_set_pixel]
    apply ite_or_combine
    constructor
    · rintro ⟨hmem, h2, h3⟩
      rcases List.mem_cons.1 hmem with h' | h'
      · exact Or.inr ⟨h', h2, h3⟩
      · exact Or.inl ⟨h', h2, h3⟩
    · rintro (⟨h1, h2, h3⟩ | ⟨h1, h2, h3⟩)
      · exact ⟨List.mem_cons_of_mem _ h1, h2, h3⟩
      · exact ⟨by rw [h1]; exact List.mem_cons_self _ _, h2, h3⟩

theorem fillScanline_width (x1 y1 x2 y2 x3 y3 : Int) (b : Bitmap) (yr : Int) :
    (fillScanline x1 y1 x2 y2 x3 y3 b yr).width = b.width := by
  unfold fillScanline
  split
  · rw [foldl_set_pixel_width]
  · rfl

theorem fillScanline_height (x1 y1 x2 y2 x3 y3 : Int) (b : Bitmap) (yr : Int) :
    (fillScanline x1 y1 x2 y2 x3 y3 b yr).height = b.height := by
  unfold fillScanline
  split
  · rw [foldl_set_pixel_height]
  · rfl

theorem WF_fillScanline (x1 y1 x2 y2 x3 y3 : Int) (b : Bitmap) (yr : Int)
    (hwf : b.WF) : (fillScanline x1 y1 x2 y2 x3 y3 b yr).WF := by
  unfold fillScanline
  split
  · exact WF_foldl_set_pixel _ _ _ hwf
  · exact hwf

/-- One scanline inks exactly the in-bounds pixels of its inclusive span
(empty when fewer than two intersections) and preserves everything else. -/
theorem get_pixel_fillScanline (x1 y1 x2 y2 x3 y3 : Int) (b : Bitmap)
    (yr x y : Int) (hwf : b.WF) (hdvd : 16 ∣ b.width) :
    (fillScanline x1 y1 x2 y2 x3 y3 b yr).get_pixel x y =
      if scanSpan x1 y1 x2 y2 x3 y3 yr x ∧ y = yr ∧ b.inB x y then 1
      else b.get_pixel x y := by
  unfold fillScanline
  by_cases hlen : 2 ≤ (xIntersections x1 y1 x2 y2 x3 y3 yr).length
  · rw [if_pos hlen, get_pixel_foldl_set_pixel _ _ _ _ _ hwf hdvd]
    by_cases hsp : x ∈ intRange
        (pyRound ((pySorted (xIntersections x1 y1 x2 y2 x3 y3 yr)).getD 0 0))
        (pyRound ((pySorted (xIntersections x1 y1 x2 y2 x3 y3 yr)).getD 1 0))
    · have hspan : scanSpan x1 y1 x2 y2 x3 y3 yr x :=
        ⟨hlen, ((mem_intRange _ _ _).1 hsp).1, ((mem_intRange _ _ _).1 hsp).2⟩
      by_cases hrest : y = yr ∧ b.inB x y
      · rw [if_pos ⟨hsp, hrest.1, hrest.2⟩, if_pos ⟨hspan, hrest.1, hrest.2⟩]
      · rw [if_neg (by rintro ⟨-, h2, h3⟩; exact hrest ⟨h2, h3⟩),
          if_neg (by rintro ⟨-, h2, h3⟩; exact hrest ⟨h2, h3⟩)]
    · rw [if_neg (by rintro ⟨h, -, -⟩; exact hsp h),
        if_neg (by
          rintro ⟨⟨-, hs1, hs2⟩, -, -⟩
          exact hsp ((mem_intRange _ _ _).2 ⟨hs1, hs2⟩))]
  · rw [if_neg hlen, if_neg (by rintro ⟨⟨h, -, -⟩, -, -⟩; exact hlen h)]

/-- The whole scanline loop: a pixel is inked exactly when its row is in
the processed range and its column in that row's span. -/
theorem get_pixel_foldl_fillScanline (x1 y1 x2 y2 x3 y3 : Int)
    (ys : List Int) (b : Bitmap) (x y : Int)
    (hwf : b.WF) (hdvd : 16 ∣ b.width) :
    (ys.foldl (fillScanline x1 y1 x2 y2 x3 y3) b).get_pixel x y =
      if y ∈ ys ∧ scanSpan x1 y1 x2 y2 x3 y3 y x ∧ b.inB x y then 1
      else b.get_pixel x y := by
  induction ys generalizing b with
  | nil =>
    rw [List.foldl_nil, if_neg (by rintro ⟨h, -, -⟩; cases h)]
  | cons yr ys ih =>
    rw [List.foldl_cons,
      ih (fillScanline x1 y1 x2 y2 x3 y3 b yr)
        (WF_fillScanline _ _ _ _ _ _ _ _ hwf)
        (by rw [fillScanline_width]; exact hdvd),
      get_pixel_fillScanline _ _ _ _ _ _ _ _ _ _ hwf hdvd]
    have hinb : ∀ x' y' : Int,
        (fillScanline x1 y1 x2 y2 x3 y3 b yr).inB x' y' ↔ b.inB x' y' := by
      intro x' y'
      unfold Bitmap.inB
      rw [fillScanline_width, fillScanline_height]
    simp only [hinb]
    apply ite_or_combine
    constructor
    · rintro ⟨hmem, h2, h3⟩
      rcases List.mem_cons.1 hmem with h' | h'
      · subst h'
        exact Or.inr ⟨h2, rfl, h3⟩
      · exact Or.inl ⟨h', h2, h3⟩
    · rintro (⟨h1, h2, h3⟩ | ⟨h1, h2, h3⟩)
      · exact ⟨List.mem_cons_of_mem _ h1, h2, h3⟩
      · subst h2
        exact ⟨List.mem_cons_self _ _, h1, h3⟩

@[simp] theorem reset_inB (b : Bitmap) (x y : Int) :
    b.reset.inB x y ↔ b.inB x y := by
  unfold Bitmap.inB
  simp

/-- C8: the filled-triangle rasterizer is exactly the spec's scanline
fill.  For every vertex triple and every pixel, drawing a dirty triangle
with `fill=true` inks pixel `(x, y)` iff `(x, y)` is in bounds, `y` lies in
`[ymin, ymax]`, the scanline at `y` has at least two edge intersections
(horizontal edges skipped), and `x` lies between the rounded two smallest
intersections inclusive; in particular a degenerate scanline with fewer
than two intersections draws nothing in its row, and no input is an
error. -/
theorem c8_triangle_scanline_fill (x1 y1 x2 y2 x3 y3 : Int) (fw fh : Nat)
    (b : Bitmap) (x y : Int)
    (hwf : b.WF) (hdvd : 16 ∣ b.width) (hdirty : b.isDirty = true) :
    (triangleDraw x1 y1 x2 y2 x3 y3 true fw fh b).get_pixel x y =
      (if trianglePixelSpec x1 y1 x2 y2 x3 y3 b.width b.height x y then 1
       else 0) := by
  have h1 : triangleDraw x1 y1 x2 y2 x3 y3 true fw fh b =
      { triangleFillRender x1 y1 x2 y2 x3 y3 b with isDirty := false } := by
    unfold triangleDraw
    rw [if_neg (by rw [hdirty]; simp), if_pos rfl]
  have h2 : ({ triangleFillRender x1 y1 x2 y2 x3 y3 b with
      isDirty := false }).get_pixel x y =
      (triangleFillRender x1 y1 x2 y2 x3 y3 b).get_pixel x y := rfl
  rw [h1, h2]
  unfold triangleFillRender
  rw [get_pixel_foldl_fillScanline _ _ _ _ _ _ _ _ _ _
    (WF_reset b hwf) (by simpa using hdvd)]
  rw [get_pixel_reset]
  have hiff : ((y ∈ intRange (min y1 (min y2 y3)) (max y1 (max y2 y3)) ∧
      scanSpan x1 y1 x2 y2 x3 y3 y x ∧ b.reset.inB x y)) ↔
      (trianglePixelSpec x1 y1 x2 y2 x3 y3 b.width b.height x y = true) := by
    rw [mem_intRange, reset_inB]
    unfold trianglePixelSpec scanSpan Bitmap.inB
    simp only [Bool.and_eq_true, decide_eq_true_eq]
    constructor
    · rintro ⟨⟨ha, hb'⟩, ⟨hc, hd, he⟩, ⟨h5, h6, h7, h8⟩⟩
      exact ⟨⟨⟨⟨⟨⟨⟨⟨h5, h6⟩, h7⟩, h8⟩, ha⟩, hb'⟩, hc⟩, hd⟩, he⟩
    · rintro ⟨⟨⟨⟨⟨⟨⟨⟨h5, h6⟩, h7⟩, h8⟩, ha⟩, hb'⟩, hc⟩, hd⟩, he⟩
      exact ⟨⟨ha, hb'⟩, ⟨hc, hd, he⟩, ⟨h5, h6, h7, h8⟩⟩
  rw [if_congr hiff rfl rfl]

/-- Witness for C8: a concrete triangle on a 16 x 8 surface; the apex
scanline has exactly one pixel and an interior pixel is inked. -/
theorem c8_witness :
    (triangleDraw 2 1 9 1 5 6 true 16 8 (mkBitmap 16 8 .on)).get_pixel 5 3 =
      (if trianglePixelSpec 2 1 9 1 5 6 (mkBitmap 16 8 .on).width
          (mkBitmap 16 8 .on).height 5 3 then 1 else 0) :=
  c8_triangle_scanline_fill 2 1 9 1 5 6 16 8 (mkBitmap 16 8 .on) 5 3
    (by decide) (by decide) (by decide)

end St7920
